import Mathlib

/-!
# TelegramScout — verification of the monitoring pipeline

A shallow embedding of the TelegramScout core (package `scout`, the
supervisor loop in `cmd/telegram-scout/main.go`, and the ingestion filter
`emitMessage` in `internal/telegram/client.go`), together with proofs of
the behavioural claims about it.

Go strings are modelled as lists of Unicode scalar values (`GoStr`);
where a behaviour is byte-sensitive (`truncate` slices bytes) a separate
byte-level model (`GoBytes` with UTF-8 encoding) is used.  The Go
`regexp` package (RE2) is modelled by a regular-expression AST with a
Brzozowski-derivative matcher, a validity scanner and a compiler for the
syntactic subset that the program constructs or that the claims exercise;
anchors are accepted syntactically but not given anchoring semantics (no
claim depends on them), and case-insensitivity uses simple case folding.
-/

set_option maxRecDepth 4000

namespace TelegramScout

/-- A Go string, modelled as its sequence of runes. -/
abbrev GoStr := List Char

/-- Build a `GoStr` from a Lean string literal. -/
def gs (s : String) : GoStr := s.data

/-! ## Go standard-library string functions used by the program -/

/-- `strings.HasPrefix(s, pre)`. -/
def goHasPrefix (s pre : GoStr) : Bool := pre.isPrefixOf s

/-- `strings.Contains(s, sub)`. -/
def goContains (s sub : GoStr) : Bool :=
  match s with
  | [] => sub.isPrefixOf []
  | _ :: rest => sub.isPrefixOf s || goContains rest sub

/-- `strings.ToLower` (simple per-rune case folding). -/
def goToLower (s : GoStr) : GoStr := s.map Char.toLower

/-- Concatenation of `f` applied to each rune, used to state per-rune
facts about `goQuoteMeta` and `goReplaceAll`. -/
def strConcatMap (f : Char → GoStr) : GoStr → GoStr
  | [] => []
  | c :: r => f c ++ strConcatMap f r

/-- Split around every occurrence of the rune `o`. -/
def splitChar (o : Char) : GoStr → List GoStr
  | [] => [[]]
  | c :: rest =>
    if c = o then [] :: splitChar o rest
    else
      match splitChar o rest with
      | [] => [[c]]
      | piece :: more => (c :: piece) :: more

/-- `strings.Split(s, sep)`.  The program only splits on the one-rune
separator `"*"`; other separator arities are not needed and map to the
unsplit string. -/
def goSplit (sep : GoStr) (s : GoStr) : List GoStr :=
  match sep with
  | [o] => splitChar o s
  | _ => [s]

/-- `strings.ReplaceAll(s, old, new)`.  The program only replaces the
one-rune `old = " "`, for which ReplaceAll is exactly the rune-wise
substitution; other arities are not needed and map to the unchanged
string. -/
def goReplaceAll (s old new : GoStr) : GoStr :=
  match old with
  | [o] => strConcatMap (fun c => if c = o then new else [c]) s
  | _ => s

/-- The characters `regexp.QuoteMeta` escapes (Go's `special`). -/
def special (c : Char) : Bool := (gs "\\.+*?()|[]{}^$").contains c

/-- `regexp.QuoteMeta`: escape every special character with a backslash;
a NUL rune becomes the escape `\x00`. -/
def goQuoteMeta (s : GoStr) : GoStr :=
  strConcatMap (fun c =>
    if special c then ['\\', c]
    else if c = '\x00' then gs "\\x00"
    else [c]) s

/-- `strings.Join(parts, sep)`. -/
def goJoin (sep : GoStr) : List GoStr → GoStr
  | [] => []
  | [x] => x
  | x :: y :: r => x ++ sep ++ goJoin sep (y :: r)

/-! ## RE2 regular expressions: AST and derivative matcher -/

/-- Perl character-class kinds that RE2 knows (`\s`, `\d`, `\w`).
RE2's `\s` is exactly `[\t\n\f\r ]`. -/
inductive ClsKind where
  | ws | digit | wordc
deriving DecidableEq

def kindMatch : ClsKind → Char → Bool
  | .ws, c => c = '\t' || c = '\n' || c = '\x0c' || c = '\r' || c = ' '
  | .digit, c => '0' ≤ c && c ≤ '9'
  | .wordc, c => ('0' ≤ c && c ≤ '9') || ('a' ≤ c && c ≤ 'z') || ('A' ≤ c && c ≤ 'Z') || c = '_'

/-- One item of a bracket class `[...]`. -/
inductive ClsItem where
  | one (c : Char)
  | range (lo hi : Char)
  | kind (k : ClsKind)
  | negKind (k : ClsKind)
deriving DecidableEq

def itemMatch (it : ClsItem) (c : Char) : Bool :=
  match it with
  | .one a => c = a
  | .range lo hi => lo ≤ c && c ≤ hi
  | .kind k => kindMatch k c
  | .negKind k => !kindMatch k c

/-- A single-character matcher (regex atom). -/
inductive CharCls where
  | lit (c : Char)
  | litCI (c : Char)
  | kind (k : ClsKind)
  | negKind (k : ClsKind)
  | any
  | anyNoNL
  | set (ci : Bool) (neg : Bool) (items : List ClsItem)
deriving DecidableEq

def clsMatch (cl : CharCls) (c : Char) : Bool :=
  match cl with
  | .lit a => c = a
  | .litCI a => c.toLower = a.toLower
  | .kind k => kindMatch k c
  | .negKind k => !kindMatch k c
  | .any => true
  | .anyNoNL => !(c = '\n')
  | .set ci neg items =>
    let test := fun x => items.any (fun it => itemMatch it x)
    let m := if ci then test c || test c.toLower || test c.toUpper else test c
    if neg then !m else m

/-- Regular expressions. -/
inductive Regex where
  | empty
  | eps
  | cls (c : CharCls)
  | cat (a b : Regex)
  | alt (a b : Regex)
  | star (a : Regex)
deriving DecidableEq

/-- Does `r` accept the empty string? -/
def nullable : Regex → Bool
  | .empty => false
  | .eps => true
  | .cls _ => false
  | .cat a b => nullable a && nullable b
  | .alt a b => nullable a || nullable b
  | .star _ => true

/-- Smart concatenation (keeps derivatives small). -/
def catS (a b : Regex) : Regex :=
  if a = .empty ∨ b = .empty then .empty
  else if a = .eps then b
  else if b = .eps then a
  else .cat a b

/-- Smart alternation (keeps derivatives small). -/
def altS (a b : Regex) : Regex :=
  if a = .empty then b
  else if b = .empty then a
  else if a = b then a
  else .alt a b

/-- Brzozowski derivative of `r` by the character `c`. -/
def deriv (r : Regex) (c : Char) : Regex :=
  match r with
  | .empty => .empty
  | .eps => .empty
  | .cls cl => if clsMatch cl c then .eps else .empty
  | .cat a b =>
    if nullable a then altS (catS (deriv a c) b) (deriv b c)
    else catS (deriv a c) b
  | .alt a b => altS (deriv a c) (deriv b c)
  | .star a => catS (deriv a c) (.star a)

/-- Anchored acceptance: does `r` match all of `s`? -/
def accepts (r : Regex) (s : GoStr) : Bool := nullable (s.foldl deriv r)

/-- `Regexp.MatchString`: does `r` match some substring of `s`? -/
def matchString (r : Regex) (s : GoStr) : Bool :=
  accepts (.cat (.star (.cls .any)) (.cat r (.star (.cls .any)))) s

/-! ## RE2 pattern validity: a one-pass scanner

`regexp.Compile` either returns a compiled program or an error.  Validity
of a pattern (over the syntactic subset this program constructs or the
claims exercise) is modelled by a left-to-right scanner with a small
state: the current mode, the open-group depth, and what kind of postfix
repetition operator is currently permitted (`0` none, `1` only a lazy
`?`, `2` any). Counted repetitions `{m,n}` are not modelled (braces scan
as literals) and anchors are accepted as atoms. -/

inductive ScanMode where
  | norm
  | paren
  | flags
  | esc
  | cls (first : Bool) (hasItem : Bool)
  | clsEsc
  | hx (pending : Nat) (inCls : Bool)
deriving DecidableEq

structure ScanSt where
  mode : ScanMode
  depth : Nat
  post : Nat
deriving DecidableEq

/-- Characters that may follow a backslash (beyond `x` which starts a
hex escape): escaped metacharacters and the one-letter classes/anchors
RE2 knows.  Digits are excluded: RE2 rejects backreferences. -/
def escOK (c : Char) : Bool :=
  special c || (gs "sdwSDWntrfvaAbBz-").contains c

def isHexDigit (c : Char) : Bool :=
  ('0' ≤ c && c ≤ '9') || ('a' ≤ c && c ≤ 'f') || ('A' ≤ c && c ≤ 'F')

def isFlagChar (c : Char) : Bool :=
  c = 'i' || c = 's' || c = 'm' || c = 'U' || c = '-'

def stepNorm (d p : Nat) (c : Char) : Option ScanSt :=
  if c = '\\' then some ⟨.esc, d, p⟩
  else if c = '(' then some ⟨.paren, d + 1, p⟩
  else if c = ')' then (if d = 0 then none else some ⟨.norm, d - 1, 2⟩)
  else if c = '|' then some ⟨.norm, d, 0⟩
  else if c = '*' || c = '+' then (if p = 2 then some ⟨.norm, d, 1⟩ else none)
  else if c = '?' then
    (if p = 2 then some ⟨.norm, d, 1⟩
     else if p = 1 then some ⟨.norm, d, 0⟩
     else none)
  else if c = '[' then some ⟨.cls true false, d, p⟩
  else some ⟨.norm, d, 2⟩

def step (st : ScanSt) (c : Char) : Option ScanSt :=
  match st with
  | ⟨.norm, d, p⟩ => stepNorm d p c
  | ⟨.paren, d, p⟩ => if c = '?' then some ⟨.flags, d, p⟩ else stepNorm d 0 c
  | ⟨.flags, d, p⟩ =>
    if isFlagChar c then some ⟨.flags, d, p⟩
    else if c = ':' then some ⟨.norm, d, 0⟩
    else if c = ')' then (if d = 0 then none else some ⟨.norm, d - 1, 0⟩)
    else none
  | ⟨.esc, d, _⟩ =>
    if c = 'x' then some ⟨.hx 2 false, d, 0⟩
    else if escOK c then some ⟨.norm, d, 2⟩
    else none
  | ⟨.cls first hasItem, d, p⟩ =>
    if c = '\\' then some ⟨.clsEsc, d, p⟩
    else if c = ']' then (if hasItem then some ⟨.norm, d, 2⟩ else none)
    else if c = '^' && first then some ⟨.cls false false, d, p⟩
    else some ⟨.cls false true, d, p⟩
  | ⟨.clsEsc, d, p⟩ =>
    if c = 'x' then some ⟨.hx 2 true, d, p⟩
    else if escOK c then some ⟨.cls false true, d, p⟩
    else none
  | ⟨.hx pending inCls, d, p⟩ =>
    if isHexDigit c then
      match pending with
      | 2 => some ⟨.hx 1 inCls, d, p⟩
      | _ => if inCls then some ⟨.cls false true, d, p⟩ else some ⟨.norm, d, 2⟩
    else none

def scanStart : ScanSt := ⟨.norm, 0, 0⟩

def scanFinal (st : ScanSt) : Bool := st.mode = .norm && st.depth = 0

def runScan (st : ScanSt) (s : GoStr) : Option ScanSt :=
  s.foldl (fun o c => o.bind (fun st => step st c)) (some st)

/-- Validity of a pattern, as decided by `regexp.Compile`. -/
def checkValid (p : GoStr) : Bool :=
  match runScan scanStart p with
  | some st => scanFinal st
  | none => false

/-! ## RE2 pattern compilation: recursive-descent AST builder

`buildRegex` turns a pattern into the `Regex` AST; it is meaningful only
on patterns `checkValid` accepts (`goRegexCompile` guards it), and uses
explicit fuel for termination.  The `i` flag folds case, the `s` flag
makes `.` match newline; lazy markers are dropped (greediness does not
affect whether a match exists); anchors become `eps`. -/

structure PFlags where
  ci : Bool
  dotAll : Bool
deriving DecidableEq

def hexVal (c : Char) : Nat :=
  if '0' ≤ c && c ≤ '9' then c.toNat - '0'.toNat
  else if 'a' ≤ c && c ≤ 'f' then c.toNat - 'a'.toNat + 10
  else if 'A' ≤ c && c ≤ 'F' then c.toNat - 'A'.toNat + 10
  else 0

/-- The literal character denoted by escape `\c` (for non-class escapes). -/
def escLit (c : Char) : Char :=
  if c = 'n' then '\n'
  else if c = 't' then '\t'
  else if c = 'r' then '\r'
  else if c = 'f' then '\x0c'
  else if c = 'v' then '\x0b'
  else if c = 'a' then '\x07'
  else c

def litOf (fl : PFlags) (c : Char) : Regex :=
  .cls (if fl.ci then .litCI c else .lit c)

/-- Apply one flag letter (or `-` sign state) to the flag record. -/
def applyFlag (sign : Bool) (fl : PFlags) (c : Char) : PFlags :=
  if c = 'i' then { fl with ci := sign }
  else if c = 's' then { fl with dotAll := sign }
  else fl

def readFlags (fl : PFlags) (sign : Bool) : GoStr → PFlags × GoStr
  | [] => (fl, [])
  | c :: r =>
    if c = '-' then readFlags fl false r
    else if isFlagChar c then readFlags (applyFlag sign fl c) sign r
    else (fl, c :: r)

/-- Parse one item of a bracket class; returns the item and the rest. -/
def parseClsItem (s : GoStr) : Option (ClsItem × GoStr) :=
  match s with
  | '\\' :: 's' :: r => some (.kind .ws, r)
  | '\\' :: 'S' :: r => some (.negKind .ws, r)
  | '\\' :: 'd' :: r => some (.kind .digit, r)
  | '\\' :: 'D' :: r => some (.negKind .digit, r)
  | '\\' :: 'w' :: r => some (.kind .wordc, r)
  | '\\' :: 'W' :: r => some (.negKind .wordc, r)
  | '\\' :: 'x' :: h1 :: h2 :: r =>
    if isHexDigit h1 && isHexDigit h2 then
      some (.one (Char.ofNat (16 * hexVal h1 + hexVal h2)), r)
    else none
  | '\\' :: e :: r => if escOK e then some (.one (escLit e), r) else none
  | c :: '-' :: d :: r => if d = ']' then some (.one c, '-' :: d :: r) else some (.range c d, r)
  | c :: r => if c = ']' then none else some (.one c, r)
  | [] => none

def parseClsItems (fuel : Nat) (acc : List ClsItem) (s : GoStr) :
    Option (List ClsItem × GoStr) :=
  match fuel with
  | 0 => none
  | fuel + 1 =>
    match s with
    | ']' :: r => some (acc.reverse, r)
    | _ =>
      match parseClsItem s with
      | some (it, r) => parseClsItems fuel (acc ++ [it]) r
      | none => none

/-- Parse a bracket class, given the input just after `[`. -/
def parseCls (fuel : Nat) (fl : PFlags) (s : GoStr) : Option (Regex × GoStr) :=
  let (neg, s1) := match s with
    | '^' :: r => (true, r)
    | _ => (false, s)
  match parseClsItems fuel [] s1 with
  | some (items, r) => some (.cls (.set fl.ci neg items), r)
  | none => none

mutual

def parseAlt (fuel : Nat) (fl : PFlags) (s : GoStr) : Option (Regex × GoStr) :=
  match fuel with
  | 0 => none
  | fuel + 1 =>
    match parseCat fuel fl s with
    | none => none
    | some (r, rest) =>
      match rest with
      | '|' :: rest2 =>
        match parseAlt fuel fl rest2 with
        | some (r2, rest3) => some (altS r r2, rest3)
        | none => none
      | _ => some (r, rest)

def parseCat (fuel : Nat) (fl : PFlags) (s : GoStr) : Option (Regex × GoStr) :=
  match fuel with
  | 0 => none
  | fuel + 1 =>
    match s with
    | [] => some (.eps, [])
    | ')' :: _ => some (.eps, s)
    | '|' :: _ => some (.eps, s)
    | _ =>
      match parseRep fuel fl s with
      | none => none
      | some (r, fl2, rest) =>
        if rest.length < s.length then
          match parseCat fuel fl2 rest with
          | some (r2, rest2) => some (catS r r2, rest2)
          | none => none
        else none

def parseRep (fuel : Nat) (fl : PFlags) (s : GoStr) :
    Option (Regex × PFlags × GoStr) :=
  match fuel with
  | 0 => none
  | fuel + 1 =>
    match parseAtom fuel fl s with
    | none => none
    | some (r, fl2, rest) =>
      match parsePostfix fuel r rest with
      | (r2, rest2) => some (r2, fl2, rest2)

def parsePostfix (fuel : Nat) (r : Regex) (s : GoStr) : Regex × GoStr :=
  match fuel with
  | 0 => (r, s)
  | fuel + 1 =>
    match s with
    | '*' :: rest => parsePostfix fuel (.star r) rest
    | '+' :: rest => parsePostfix fuel (catS r (.star r)) rest
    | '?' :: rest => parsePostfix fuel (altS r .eps) rest
    | _ => (r, s)

def parseAtom (fuel : Nat) (fl : PFlags) (s : GoStr) :
    Option (Regex × PFlags × GoStr) :=
  match fuel with
  | 0 => none
  | fuel + 1 =>
    match s with
    | [] => none
    | '(' :: '?' :: rest =>
      match readFlags fl true rest with
      | (fl2, rest2) =>
        match rest2 with
        | ')' :: rest3 => some (.eps, fl2, rest3)
        | ':' :: rest3 =>
          match parseAlt fuel fl2 rest3 with
          | some (r, ')' :: rest4) => some (r, fl, rest4)
          | _ => none
        | _ => none
    | '(' :: rest =>
      match parseAlt fuel fl rest with
      | some (r, ')' :: rest2) => some (r, fl, rest2)
      | _ => none
    | '[' :: rest =>
      match parseCls fuel fl rest with
      | some (r, rest2) => some (r, fl, rest2)
      | none => none
    | '\\' :: 'x' :: h1 :: h2 :: rest =>
      if isHexDigit h1 && isHexDigit h2 then
        some (litOf fl (Char.ofNat (16 * hexVal h1 + hexVal h2)), fl, rest)
      else none
    | '\\' :: 's' :: rest => some (.cls (.kind .ws), fl, rest)
    | '\\' :: 'S' :: rest => some (.cls (.negKind .ws), fl, rest)
    | '\\' :: 'd' :: rest => some (.cls (.kind .digit), fl, rest)
    | '\\' :: 'D' :: rest => some (.cls (.negKind .digit), fl, rest)
    | '\\' :: 'w' :: rest => some (.cls (.kind .wordc), fl, rest)
    | '\\' :: 'W' :: rest => some (.cls (.negKind .wordc), fl, rest)
    | '\\' :: 'A' :: rest => some (.eps, fl, rest)
    | '\\' :: 'z' :: rest => some (.eps, fl, rest)
    | '\\' :: 'b' :: rest => some (.eps, fl, rest)
    | '\\' :: 'B' :: rest => some (.eps, fl, rest)
    | '\\' :: e :: rest =>
      if escOK e then some (litOf fl (escLit e), fl, rest) else none
    | '.' :: rest =>
      some (.cls (if fl.dotAll then .any else .anyNoNL), fl, rest)
    | '^' :: rest => some (.eps, fl, rest)
    | '$' :: rest => some (.eps, fl, rest)
    | c :: rest => some (litOf fl c, fl, rest)

end

/-- AST for a pattern; meaningful only when `checkValid` holds. -/
def buildRegex (p : GoStr) : Regex :=
  match parseAlt (4 * p.length + 8) ⟨false, false⟩ p with
  | some (r, []) => r
  | _ => .empty

/-- `regexp.Compile`: `some` compiled AST on a valid pattern, `none`
(an error) otherwise. -/
def goRegexCompile (p : GoStr) : Option Regex :=
  if checkValid p then some (buildRegex p) else none

/-- `regexp.MustCompile`: the program only calls this on patterns it
constructed itself; invalidity would panic in Go.  Theorem
`compileRules_glob_phrase_valid` (claim C10) shows the constructed
patterns are always valid, so the junk value is unreachable. -/
def mustCompile (p : GoStr) : Regex := (goRegexCompile p).getD .empty

/-! ## Byte-level strings: UTF-8, `truncate`, the alert text

Go's `len` and slicing act on bytes; `truncate` in scout.go is therefore
byte-sensitive and is modelled at byte level. -/

/-- A Go string viewed as its UTF-8 bytes. -/
abbrev GoBytes := List Nat

/-- UTF-8 encoding of one rune. -/
def utf8Char (c : Char) : GoBytes :=
  let n := c.toNat
  if n < 0x80 then [n]
  else if n < 0x800 then [0xC0 + n / 0x40, 0x80 + n % 0x40]
  else if n < 0x10000 then
    [0xE0 + n / 0x1000, 0x80 + n / 0x40 % 0x40, 0x80 + n % 0x40]
  else
    [0xF0 + n / 0x40000, 0x80 + n / 0x1000 % 0x40, 0x80 + n / 0x40 % 0x40,
      0x80 + n % 0x40]

/-- UTF-8 encoding of a string. -/
def utf8Str (s : GoStr) : GoBytes :=
  match s with
  | [] => []
  | c :: r => utf8Char c ++ utf8Str r

/-- `truncate` in scout.go: `if len(s) > max { return s[:max] + "..." }`.
Both `len` and the slice are byte-operations in Go. -/
def truncate (s : GoBytes) (max : Nat) : GoBytes :=
  if s.length > max then s.take max ++ utf8Str (gs "...") else s

/-- `time.Kitchen` formatting ("3:04PM") of a Unix timestamp, in UTC. -/
def formatKitchen (t : Nat) : GoStr :=
  let h24 := t / 3600 % 24
  let m := t / 60 % 60
  let h12 := if h24 % 12 = 0 then 12 else h24 % 12
  let ampm := if h24 < 12 then gs "AM" else gs "PM"
  gs (toString h12) ++ gs ":" ++ (if m < 10 then gs "0" else []) ++
    gs (toString m) ++ ampm

/-- The `alertText` built in `Scout.process` (the `fmt.Sprintf` call),
at byte level. -/
def buildAlertText (keyword chatTitle : GoStr) (date : Nat) (link : GoStr)
    (text : GoStr) : GoBytes :=
  utf8Str (gs "🚨 <b>Match:</b> ") ++ utf8Str keyword ++
  utf8Str (gs "\n📢 <b>Chat:</b> ") ++ utf8Str chatTitle ++
  utf8Str (gs "\n🕒 <b>Time:</b> ") ++ utf8Str (formatKitchen date) ++
  utf8Str (gs "\n🔗 <a href=\"") ++ utf8Str link ++
  utf8Str (gs "\">Link to Message</a>\n\n<i>") ++
  truncate (utf8Str text) 200 ++
  utf8Str (gs "</i>")

/-! ## The Scout: rule compilation, dedup cache, `process` -/

/-- `matchRule` in scout.go: a compiled matching strategy. -/
structure matchRule where
  original : GoStr
  check : GoStr → Bool

/-- One iteration of the keyword loop in `Scout.compileRules`:
`none` models the `continue` taken for an invalid `re:` pattern. -/
def compileKeyword (k : GoStr) : Option matchRule :=
  if goHasPrefix k (gs "re:") then
    match goRegexCompile (k.drop 3) with
    | none => none
    | some re => some ⟨k, fun text => matchString re text⟩
  else if goContains k (gs "*") then
    let parts := (goSplit (gs "*") k).map
      (fun p => goReplaceAll (goQuoteMeta p) (gs " ") (gs "\\s+"))
    let pattern := gs "(?si)" ++ goJoin (gs ".*") parts
    let re := mustCompile pattern
    some ⟨k, fun text => matchString re text⟩
  else if goContains k (gs " ") then
    let pattern := gs "(?si)" ++ goReplaceAll (goQuoteMeta k) (gs " ") (gs "\\s+")
    let re := mustCompile pattern
    some ⟨k, fun text => matchString re text⟩
  else
    let lowK := goToLower k
    some ⟨k, fun text => goContains (goToLower text) lowK⟩

/-- `Scout.compileRules`: rules for the valid specs, in input order. -/
def compileRules (keywords : List GoStr) : List matchRule :=
  keywords.filterMap compileKeyword

/-- The pattern string the glob branch of `compileRules` constructs. -/
def globPattern (k : GoStr) : GoStr :=
  gs "(?si)" ++ goJoin (gs ".*")
    ((goSplit (gs "*") k).map
      (fun p => goReplaceAll (goQuoteMeta p) (gs " ") (gs "\\s+")))

/-- The pattern string the phrase branch of `compileRules` constructs. -/
def phrasePattern (k : GoStr) : GoStr :=
  gs "(?si)" ++ goReplaceAll (goQuoteMeta k) (gs " ") (gs "\\s+")

/-- An inbound message (`model.Message`; the struct is constructed in
`client.go emitMessage` with these fields). -/
structure Msg where
  id : Int
  chatID : Int
  chatTitle : GoStr
  username : GoStr
  text : GoStr
  date : Nat
  link : GoStr

/-- `fmt.Sprintf("%d:%d", msg.ChatID, msg.ID)`. -/
def dedupKey (m : Msg) : GoStr :=
  gs (toString m.chatID) ++ gs ":" ++ gs (toString m.id)

/-- `sync.Map.Load` on the dedup cache (association list model). -/
def mapLoad (m : List (GoStr × Nat)) (k : GoStr) : Option Nat :=
  (m.find? (fun e => decide (e.1 = k))).map (·.2)

/-- `sync.Map.Store` (replace an existing entry, else append). -/
def mapStore (m : List (GoStr × Nat)) (k : GoStr) (v : Nat) :
    List (GoStr × Nat) :=
  if (m.find? (fun e => decide (e.1 = k))).isSome then
    m.map (fun e => if e.1 = k then (k, v) else e)
  else m ++ [(k, v)]

/-- The dedup cache `seenMsgs` (value = expiry, Unix seconds). -/
structure ScoutState where
  seen : List (GoStr × Nat)
deriving DecidableEq

/-- The 1-hour TTL `process` stores (`time.Now().Add(1*time.Hour)`). -/
def ttlSeconds : Nat := 3600

/-- `Scout.process` up to the dispatch stage, as a pure transition:
dedup check, first-match rule search, mark-seen, alert construction.
The result alert (`some` = the event proceeds to dispatch, modelled
separately by `dnext`) is the `alertText` bytes. -/
def process (rules : List matchRule) (now : Nat) (st : ScoutState)
    (msg : Msg) : ScoutState × Option GoBytes :=
  let key := dedupKey msg
  if (mapLoad st.seen key).isSome then (st, none)
  else
    match rules.find? (fun rule => rule.check msg.text) with
    | none => (st, none)
    | some rule =>
      (⟨mapStore st.seen key (now + ttlSeconds)⟩,
        some (buildAlertText rule.original msg.chatTitle msg.date msg.link
          msg.text))

/-- The per-tick body of `cleanupCache`: delete every entry with
`now.After(expiry)`, i.e. keep exactly the entries with `expiry ≥ now`. -/
def sweepCache (now : Nat) (st : ScoutState) : ScoutState :=
  ⟨st.seen.filter (fun e => !decide (now > e.2))⟩

/-! ## The dispatch limiter (`notifySem`, capacity 5)

The fate of one matched event at the dispatch `select` in
`Scout.process`, as a branching transition system.  A state records the
event's phase, the number of occupied limiter slots, and whether the
governing context is cancelled.  `dnext` lists all possible next states:
the program steps (Go `select` with a `default` arm never waits — a
ready arm is chosen nondeterministically, the `default` arm runs only
when no arm is ready; the fallback `s.notifySem <- struct{}{}` is a bare
channel send with no context arm) interleaved with environment steps
(context cancellation; a concurrent delivery goroutine releasing a
slot). -/

inductive DPhase where
  | start      -- about to execute the dispatch select
  | blocked    -- inside the fallback blocking send
  | delivered  -- slot acquired, delivery goroutine spawned
  | dropped    -- returned without a delivery attempt
deriving DecidableEq

structure DState where
  phase : DPhase
  sem : Nat
  ctxDone : Bool
deriving DecidableEq

/-- `notifySem := make(chan struct{}, 5)` in `scout.New`. -/
def semCap : Nat := 5

def dnext (s : DState) : List DState :=
  (match s.phase with
   | .start =>
     (if s.sem < semCap then [⟨.delivered, s.sem + 1, s.ctxDone⟩] else []) ++
     (if s.ctxDone then [⟨.dropped, s.sem, s.ctxDone⟩] else []) ++
     (if ¬ s.sem < semCap ∧ s.ctxDone = false then [⟨.blocked, s.sem, s.ctxDone⟩]
      else [])
   | .blocked =>
     if s.sem < semCap then [⟨.delivered, s.sem + 1, s.ctxDone⟩] else []
   | _ => []) ++
  (if s.ctxDone then [] else [⟨s.phase, s.sem, true⟩]) ++
  (if 0 < s.sem ∧ (s.phase = .start ∨ s.phase = .blocked) then
    [⟨s.phase, s.sem - 1, s.ctxDone⟩] else [])

/-- All states reachable from `acc` in at most `fuel` rounds of `dnext`
(the state space here is finite, so enough fuel reaches a fixpoint). -/
def dReach (fuel : Nat) (acc : List DState) : List DState :=
  match fuel with
  | 0 => acc
  | fuel + 1 =>
    let next := ((acc.map dnext).foldr (· ++ ·) []).filter
      (fun s => !acc.contains s)
    match next with
    | [] => acc
    | _ => dReach fuel (acc ++ next.eraseDups)

/-! ## The session supervisor (`runSupervisor` in main.go) -/

/-- Outcome of one `startClientSession` call.  `crash afterSuccess`
records whether a successful `Running` period of nontrivial duration
preceded the failure — information the code does not consult. -/
inductive SessionOutcome where
  | fatalInit
  | graceful
  | crash (afterSuccess : Bool)
deriving DecidableEq

inductive SupExit where
  | stopped    -- graceful return
  | cancelled  -- context cancelled during a backoff wait
  | fatal      -- log.Fatal on initialization failure
deriving DecidableEq

/-- backoff seed `time.Second` and cap `1 * time.Minute`, in seconds. -/
def seedBackoff : Nat := 1
def capBackoff : Nat := 60

/-- The `runSupervisor` loop over a sequence of session outcomes.
Returns the list of backoff waits actually completed (in seconds) and
how the loop ended.  `cancelAt k` states that the governing context is
cancelled during the `k`-th backoff wait; such a wait is aborted, is not
recorded, and the loop returns at once with no further session.  An
exhausted outcome list ends the trace as a graceful stop. -/
def runSupervisorLoop (backoff waitIdx : Nat) (cancelAt : Nat → Bool) :
    List SessionOutcome → List Nat × SupExit
  | [] => ([], .stopped)
  | o :: rest =>
    match o with
    | .fatalInit => ([], .fatal)
    | .graceful => ([], .stopped)
    | .crash _ =>
      if cancelAt waitIdx then ([], .cancelled)
      else
        let next := if backoff * 2 > capBackoff then capBackoff else backoff * 2
        let (ws, ex) := runSupervisorLoop next (waitIdx + 1) cancelAt rest
        (backoff :: ws, ex)

def runSupervisor (cancelAt : Nat → Bool) (outcomes : List SessionOutcome) :
    List Nat × SupExit :=
  runSupervisorLoop seedBackoff 0 cancelAt outcomes

/-! ## The ingestion filter (`emitMessage`) and the pipeline -/

structure PeerInfo where
  title : GoStr
  username : GoStr
deriving DecidableEq

/-- `msg.PeerID`: the three peer classes `emitMessage` switches on. -/
inductive Peer where
  | channel (id : Int)
  | chat (id : Int)
  | user (id : Int)

/-- The raw update message (`*tg.Message` fields `emitMessage` reads). -/
structure TGMsg where
  id : Int
  peer : Peer
  text : GoStr
  date : Nat

/-- `tg.Entities` (the lookup tables `emitMessage` consults). -/
structure Entities where
  channels : List (Int × PeerInfo)
  chats : List (Int × GoStr)

def lookupAssoc {α : Type} (m : List (Int × α)) (k : Int) : Option α :=
  (m.find? (fun e => decide (e.1 = k))).map (·.2)

/-- The chat identifier `emitMessage` derives from the peer. -/
def peerId : Peer → Int
  | .channel id => id
  | .chat id => id
  | .user id => id

/-- `Client.emitMessage`: resolve the peer, drop the message unless its
chat identifier is in the allow-listed `peerCache` (`none` = nothing is
placed on the inbound channel), else construct the `model.Message`. -/
def emitMessage (peerCache : List (Int × PeerInfo)) (entities : Entities)
    (msg : TGMsg) : Option Msg :=
  let resolved : Int × GoStr × GoStr :=
    match msg.peer with
    | .channel cid =>
      match lookupAssoc entities.channels cid with
      | some info => (cid, info.title, info.username)
      | none => (cid, [], [])
    | .chat cid =>
      match lookupAssoc entities.chats cid with
      | some t => (cid, t, [])
      | none => (cid, [], [])
    | .user uid => (uid, [], [])
  match resolved with
  | (chatID, title0, username0) =>
    match lookupAssoc peerCache chatID with
    | none => none
    | some info =>
      let title := if title0 = [] then info.title else title0
      let username := if username0 = [] then info.username else username0
      let link :=
        if username ≠ [] then
          gs "https://t.me/" ++ username ++ gs "/" ++ gs (toString msg.id)
        else
          gs "https://t.me/c/" ++ gs (toString chatID) ++ gs "/" ++
            gs (toString msg.id)
      some ⟨msg.id, chatID, title, username, msg.text, msg.date, link⟩

/-- Pipeline state: the allow-listed peer map, the inbound channel
contents, and the messages whose text the Rule Engine has examined. -/
structure PipeState where
  cache : List (Int × PeerInfo)
  queue : List Msg
  evaluated : List Msg

/-- Pipeline actions: an update arrives at `emitMessage`; the Scout
consumes (and rule-matches) the next queued message; peer resolution
rewrites the allow-list. -/
inductive PipeAct where
  | ingest (ents : Entities) (msg : TGMsg)
  | consume
  | setCache (cache : List (Int × PeerInfo))

def pipeStep (st : PipeState) (a : PipeAct) : PipeState :=
  match a with
  | .ingest ents msg =>
    { st with queue := st.queue ++ (emitMessage st.cache ents msg).toList }
  | .consume =>
    match st.queue with
    | [] => st
    | m :: rest => { st with queue := rest, evaluated := st.evaluated ++ [m] }
  | .setCache c => { st with cache := c }

def pipeRun (st : PipeState) (acts : List PipeAct) : PipeState :=
  acts.foldl pipeStep st

def pipeInit (cache : List (Int × PeerInfo)) : PipeState := ⟨cache, [], []⟩

/-- "Chat identifier `c` is never allow-listed during the run": the
initial map and every map installed by a `setCache` action omit `c`. -/
def actsAvoid (c : Int) (acts : List PipeAct) : Prop :=
  ∀ a ∈ acts, ∀ cache, a = PipeAct.setCache cache → lookupAssoc cache c = none

/-! ## Semantics of regular expressions, and correctness of the matcher

`Matches r s` is the textbook matching relation; the derivative matcher
`accepts` is proved to decide it, which lets concrete rule predicates be
evaluated and quantified matching facts be proved. -/

inductive Matches : Regex → GoStr → Prop where
  | eps : Matches .eps []
  | cls {cl : CharCls} {c : Char} : clsMatch cl c = true → Matches (.cls cl) [c]
  | cat {a b : Regex} {s1 s2 : GoStr} :
      Matches a s1 → Matches b s2 → Matches (.cat a b) (s1 ++ s2)
  | altL {a b : Regex} {s : GoStr} : Matches a s → Matches (.alt a b) s
  | altR {a b : Regex} {s : GoStr} : Matches b s → Matches (.alt a b) s
  | starNil {a : Regex} : Matches (.star a) []
  | starCons {a : Regex} {s1 s2 : GoStr} :
      Matches a s1 → Matches (.star a) s2 → Matches (.star a) (s1 ++ s2)

theorem matches_empty_iff (s : GoStr) : Matches .empty s ↔ False := by
  constructor
  · intro h; cases h
  · intro h; cases h

theorem matches_eps_iff (s : GoStr) : Matches .eps s ↔ s = [] := by
  constructor
  · intro h; cases h; rfl
  · intro h; subst h; exact .eps

theorem matches_cls_iff (cl : CharCls) (s : GoStr) :
    Matches (.cls cl) s ↔ ∃ c, s = [c] ∧ clsMatch cl c = true := by
  constructor
  · intro h; cases h with
    | cls hc => exact ⟨_, rfl, hc⟩
  · rintro ⟨c, rfl, hc⟩; exact .cls hc

theorem matches_cat_iff (a b : Regex) (s : GoStr) :
    Matches (.cat a b) s ↔
      ∃ s1 s2, s = s1 ++ s2 ∧ Matches a s1 ∧ Matches b s2 := by
  constructor
  · intro h; cases h with
    | cat h1 h2 => exact ⟨_, _, rfl, h1, h2⟩
  · rintro ⟨s1, s2, rfl, h1, h2⟩; exact .cat h1 h2

theorem matches_alt_iff (a b : Regex) (s : GoStr) :
    Matches (.alt a b) s ↔ Matches a s ∨ Matches b s := by
  constructor
  · intro h; cases h with
    | altL h => exact Or.inl h
    | altR h => exact Or.inr h
  · rintro (h | h)
    · exact .altL h
    · exact .altR h

theorem matches_nil_of (r : Regex) (s : GoStr) (h : Matches r s) (hs : s = []) :
    nullable r = true := by
  induction h with
  | eps => rfl
  | cls _ => simp at hs
  | cat _ _ ih1 ih2 =>
    rcases List.append_eq_nil.mp hs with ⟨h1, h2⟩
    simp [nullable, ih1 h1, ih2 h2]
  | altL _ ih => simp [nullable, ih hs]
  | altR _ ih => simp [nullable, ih hs]
  | starNil => rfl
  | starCons _ _ _ _ => rfl

theorem nullable_iff (r : Regex) : nullable r = true ↔ Matches r [] := by
  constructor
  · intro h
    induction r with
    | empty => simp [nullable] at h
    | eps => exact .eps
    | cls _ => simp [nullable] at h
    | cat a b iha ihb =>
      simp only [nullable, Bool.and_eq_true] at h
      exact (List.nil_append ([] : GoStr)) ▸ Matches.cat (iha h.1) (ihb h.2)
    | alt a b iha ihb =>
      simp only [nullable, Bool.or_eq_true] at h
      rcases h with h | h
      · exact .altL (iha h)
      · exact .altR (ihb h)
    | star a _ => exact .starNil
  · intro h; exact matches_nil_of r [] h rfl

theorem matches_cat_empty_l (b : Regex) (s : GoStr) :
    Matches (.cat .empty b) s ↔ False := by
  rw [matches_cat_iff]
  constructor
  · rintro ⟨s1, s2, rfl, h1, _⟩; exact (matches_empty_iff s1).mp h1
  · intro h; cases h

theorem matches_cat_empty_r (a : Regex) (s : GoStr) :
    Matches (.cat a .empty) s ↔ False := by
  rw [matches_cat_iff]
  constructor
  · rintro ⟨s1, s2, rfl, _, h2⟩; exact (matches_empty_iff s2).mp h2
  · intro h; cases h

theorem matches_cat_eps_l (b : Regex) (s : GoStr) :
    Matches (.cat .eps b) s ↔ Matches b s := by
  rw [matches_cat_iff]
  constructor
  · rintro ⟨s1, s2, rfl, h1, h2⟩
    rw [matches_eps_iff] at h1; subst h1; simpa using h2
  · intro h; exact ⟨[], s, rfl, .eps, h⟩

theorem matches_cat_eps_r (a : Regex) (s : GoStr) :
    Matches (.cat a .eps) s ↔ Matches a s := by
  rw [matches_cat_iff]
  constructor
  · rintro ⟨s1, s2, rfl, h1, h2⟩
    rw [matches_eps_iff] at h2; subst h2; simpa using h1
  · intro h; exact ⟨s, [], by simp, h, .eps⟩

theorem matches_catS_iff (a b : Regex) (s : GoStr) :
    Matches (catS a b) s ↔ Matches (.cat a b) s := by
  unfold catS
  by_cases h1 : a = .empty ∨ b = .empty
  · rw [if_pos h1]
    rcases h1 with rfl | rfl
    · simp [matches_empty_iff, matches_cat_empty_l]
    · simp [matches_empty_iff, matches_cat_empty_r]
  · rw [if_neg h1]
    by_cases h2 : a = .eps
    · subst h2; rw [if_pos rfl, matches_cat_eps_l]
    · rw [if_neg h2]
      by_cases h3 : b = .eps
      · subst h3; rw [if_pos rfl, matches_cat_eps_r]
      · rw [if_neg h3]

theorem matches_altS_iff (a b : Regex) (s : GoStr) :
    Matches (altS a b) s ↔ Matches (.alt a b) s := by
  unfold altS
  by_cases h1 : a = .empty
  · subst h1; simp [matches_alt_iff, matches_empty_iff]
  · rw [if_neg h1]
    by_cases h2 : b = .empty
    · subst h2; simp [matches_alt_iff, matches_empty_iff]
    · rw [if_neg h2]
      by_cases h3 : a = b
      · subst h3; rw [if_pos rfl, matches_alt_iff, or_self]
      · rw [if_neg h3]

/-- Inversion for a star matching a nonempty string: some nonempty-headed
round matches first. -/
theorem matches_star_cons_inv (r0 : Regex) (s0 : GoStr) (h : Matches r0 s0) :
    ∀ a c s, r0 = .star a → s0 = c :: s →
      ∃ s1 s2, s = s1 ++ s2 ∧ Matches a (c :: s1) ∧ Matches (.star a) s2 := by
  induction h with
  | eps => intro a c s hr; cases hr
  | cls _ => intro a c s hr; cases hr
  | cat _ _ _ _ => intro a c s hr; cases hr
  | altL _ _ => intro a c s hr; cases hr
  | altR _ _ => intro a c s hr; cases hr
  | starNil => intro a c s _ hs; cases hs
  | starCons h1 h2 ih1 ih2 =>
    intro a c s hr hs
    injection hr with haa
    subst haa
    rcases List.cons_eq_append_iff.mp hs.symm with ⟨rfl, rfl⟩ | ⟨s1', rfl, rfl⟩
    · exact ih2 _ c s rfl rfl
    · exact ⟨s1', _, rfl, h1, h2⟩

theorem matches_deriv_iff (r : Regex) (c : Char) :
    ∀ s, Matches (deriv r c) s ↔ Matches r (c :: s) := by
  induction r with
  | empty => intro s; simp [deriv, matches_empty_iff]
  | eps => intro s; simp [deriv, matches_empty_iff, matches_eps_iff]
  | cls cl =>
    intro s
    simp only [deriv]
    split <;> rename_i hc
    · simp only [matches_eps_iff, matches_cls_iff]
      constructor
      · rintro rfl; exact ⟨c, rfl, hc⟩
      · rintro ⟨c', he, _⟩; cases he; rfl
    · simp only [matches_empty_iff, matches_cls_iff, false_iff]
      rintro ⟨c', he, hm⟩; cases he; simp [hm] at hc
  | cat a b iha ihb =>
    intro s
    simp only [deriv]
    split <;> rename_i hn
    · rw [matches_altS_iff, matches_alt_iff, matches_catS_iff,
        matches_cat_iff, matches_cat_iff]
      constructor
      · rintro (⟨s1, s2, rfl, h1, h2⟩ | h)
        · exact ⟨c :: s1, s2, rfl, (iha s1).mp h1, h2⟩
        · exact ⟨[], c :: s, rfl, (nullable_iff a).mp hn, (ihb s).mp h⟩
      · rintro ⟨s1, s2, he, h1, h2⟩
        rcases List.cons_eq_append_iff.mp he with ⟨rfl, rfl⟩ | ⟨s1', rfl, rfl⟩
        · exact Or.inr ((ihb s).mpr h2)
        · exact Or.inl ⟨s1', s2, rfl, (iha s1').mpr h1, h2⟩
    · rw [matches_catS_iff, matches_cat_iff, matches_cat_iff]
      constructor
      · rintro ⟨s1, s2, rfl, h1, h2⟩
        exact ⟨c :: s1, s2, rfl, (iha s1).mp h1, h2⟩
      · rintro ⟨s1, s2, he, h1, h2⟩
        rcases List.cons_eq_append_iff.mp he with ⟨rfl, rfl⟩ | ⟨s1', rfl, rfl⟩
        · exact absurd (matches_nil_of a [] h1 rfl) (by simp [hn])
        · exact ⟨s1', s2, rfl, (iha s1').mpr h1, h2⟩
  | alt a b iha ihb =>
    intro s
    simp only [deriv]
    rw [matches_altS_iff, matches_alt_iff, matches_alt_iff, iha, ihb]
  | star a iha =>
    intro s
    simp only [deriv]
    rw [matches_catS_iff, matches_cat_iff]
    constructor
    · rintro ⟨s1, s2, rfl, h1, h2⟩
      exact Matches.starCons ((iha s1).mp h1) h2
    · intro h
      rcases matches_star_cons_inv _ _ h a c s rfl rfl with ⟨s1, s2, rfl, h1, h2⟩
      exact ⟨s1, s2, rfl, (iha s1).mpr h1, h2⟩

theorem accepts_iff (s : GoStr) : ∀ r, accepts r s = true ↔ Matches r s := by
  induction s with
  | nil => intro r; exact nullable_iff r
  | cons c s ih =>
    intro r
    have : accepts r (c :: s) = accepts (deriv r c) s := rfl
    rw [this, ih (deriv r c), matches_deriv_iff r c s]

/-- `.star (.cls .any)` matches every string. -/
theorem matches_star_any (l : GoStr) : Matches (.star (.cls .any)) l := by
  induction l with
  | nil => exact .starNil
  | cons c l ih =>
    have h1 : Matches (.cls .any) [c] := .cls rfl
    exact Matches.starCons h1 ih

/-- A starred class matches any string of member characters. -/
theorem matches_star_cls (cl : CharCls) (l : GoStr)
    (h : ∀ c ∈ l, clsMatch cl c = true) : Matches (.star (.cls cl)) l := by
  induction l with
  | nil => exact .starNil
  | cons c l ih =>
    have h1 : Matches (.cls cl) [c] := .cls (h c (by simp))
    exact Matches.starCons h1 (ih (fun c hc => h c (by simp [hc])))

/-- `MatchString` is complete: a regex matching some decomposition of the
input makes the unanchored search succeed. -/
theorem matchString_of_matches (r : Regex) (pre mid post : GoStr)
    (h : Matches r mid) : matchString r (pre ++ mid ++ post) = true := by
  rw [matchString, accepts_iff]
  have hmid : Matches (.cat r (.star (.cls .any))) (mid ++ post) :=
    .cat h (matches_star_any post)
  have := Matches.cat (matches_star_any pre) hmid
  simpa using this

/-! ## Dedup-cache lemmas -/

theorem mapLoad_mapStore_self (m : List (GoStr × Nat)) (k : GoStr) (v : Nat) :
    mapLoad (mapStore m k v) k = some v := by
  unfold mapStore
  split <;> rename_i h
  · induction m with
    | nil => simp at h
    | cons e rest ih =>
      by_cases he : e.1 = k
      · simp [mapLoad, List.find?_cons, he]
      · have : (List.find? (fun e => decide (e.1 = k)) rest).isSome = true := by
          simpa [List.find?_cons, he] using h
        simpa [mapLoad, List.find?_cons, he] using ih this
  · have hm : m.find? (fun e => decide (e.1 = k)) = none := by
      cases hf : m.find? (fun e => decide (e.1 = k)) with
      | none => rfl
      | some e => rw [hf] at h; simp at h
    simp [mapLoad, List.find?_append, hm, List.find?_cons]

theorem mapStore_entries (m : List (GoStr × Nat)) (k : GoStr) (v : Nat) :
    ∀ e ∈ mapStore m k v, e.1 = k → e.2 = v := by
  unfold mapStore
  split <;> rename_i h
  · intro e he hk
    rw [List.mem_map] at he
    obtain ⟨e0, _, rfl⟩ := he
    by_cases h0 : e0.1 = k
    · simp [h0]
    · rw [if_neg h0] at hk ⊢; exact absurd hk h0
  · intro e he hk
    rcases List.mem_append.mp he with hm | hm
    · have hn : m.find? (fun e => decide (e.1 = k)) = none := by
        cases hf : m.find? (fun e => decide (e.1 = k)) with
        | none => rfl
        | some e => rw [hf] at h; simp at h
      exact absurd hk (by simpa using List.find?_eq_none.mp hn e hm)
    · simp only [List.mem_singleton] at hm
      subst hm; rfl

theorem mem_sweepCache (now : Nat) (st : ScoutState) (e : GoStr × Nat) :
    e ∈ (sweepCache now st).seen ↔ e ∈ st.seen ∧ now ≤ e.2 := by
  simp [sweepCache, List.mem_filter, Nat.not_lt]

theorem mapLoad_sweep_gone (m : List (GoStr × Nat)) (k : GoStr) (v now : Nat)
    (h : v < now) : mapLoad (sweepCache now ⟨mapStore m k v⟩).seen k = none := by
  rw [mapLoad, Option.map_eq_none']
  rw [List.find?_eq_none]
  intro e he hk
  rcases (mem_sweepCache now ⟨mapStore m k v⟩ e).mp he with ⟨hmem, hle⟩
  have : e.2 = v := mapStore_entries m k v e hmem (by simpa using hk)
  omega

/-- C7 (amended): `Sweep(now)` removes exactly the entries with expiry
strictly less than `now` (Go's `now.After(expiry)`), keeping all others —
in particular an entry whose expiry equals `now` is kept; an entry
inserted with expiry `t0+1h` is found by the `Seen` lookup before any
sweep, and is absent after a sweep run at any `now > t0+1h`. -/
theorem claim_C7_sweep (now t0 : Nat) (st : ScoutState)
    (m : List (GoStr × Nat)) (k : GoStr) (e : GoStr × Nat) :
    (e ∈ (sweepCache now st).seen ↔ e ∈ st.seen ∧ now ≤ e.2) ∧
    mapLoad (mapStore m k (t0 + ttlSeconds)) k = some (t0 + ttlSeconds) ∧
    (t0 + ttlSeconds < now →
      mapLoad (sweepCache now ⟨mapStore m k (t0 + ttlSeconds)⟩).seen k = none) := by
  refine ⟨mem_sweepCache now st e, mapLoad_mapStore_self m k (t0 + ttlSeconds), ?_⟩
  intro h
  exact mapLoad_sweep_gone m k (t0 + ttlSeconds) now h

/-- C7 witness: the theorem instantiated at a concrete cache and clock. -/
theorem claim_C7_sweep_witness :
    mapLoad (sweepCache 7202 ⟨mapStore [] (gs "100:999") (3600 + ttlSeconds)⟩).seen
      (gs "100:999") = none :=
  (claim_C7_sweep 7202 3600 ⟨[]⟩ [] (gs "100:999") ((gs "k"), 0)).2.2 (by decide)

/-- C7 counterexample: the claim says a sweep removes every entry with
expiry ≤ now, but `cleanupCache` deletes only on `now.After(expiry)`
(strict), so an entry whose expiry equals `now` survives the sweep. -/
theorem claim_C7_counterexample :
    (100 : Nat) ≤ 100 ∧
    sweepCache 100 ⟨[(gs "100:999", 100)]⟩ = ⟨[(gs "100:999", 100)]⟩ := by
  exact ⟨by decide, by rfl⟩

/-! ## Supervisor backoff lemmas -/

theorem nextBackoff_pow (k : Nat) :
    (if min (2 ^ k) capBackoff * 2 > capBackoff then capBackoff
     else min (2 ^ k) capBackoff * 2) = min (2 ^ (k + 1)) capBackoff := by
  have h : 2 ^ (k + 1) = 2 * 2 ^ k := by rw [pow_succ]; ring
  rw [show capBackoff = 60 from rfl] at *
  rcases Nat.le_total (2 ^ k) 60 with h1 | h1 <;>
    simp [Nat.min_def] <;> split_ifs <;> omega

theorem supLoop_replicate (n : Nat) : ∀ k idx,
    runSupervisorLoop (min (2 ^ k) capBackoff) idx (fun _ => false)
      (List.replicate n (.crash false)) =
    ((List.range n).map (fun j => min (2 ^ (k + j)) capBackoff), .stopped) := by
  induction n with
  | zero => intro k idx; rfl
  | succ n ih =>
    intro k idx
    rw [List.replicate_succ]
    simp only [runSupervisorLoop, Bool.false_eq_true, if_false]
    rw [nextBackoff_pow k, ih (k + 1) (idx + 1)]
    rw [List.range_succ_eq_map, List.map_cons, List.map_map]
    have harg : List.map ((fun j => min (2 ^ (k + j)) capBackoff) ∘ Nat.succ)
        (List.range n) =
        List.map (fun j => min (2 ^ (k + 1 + j)) capBackoff) (List.range n) := by
      apply List.map_congr_left
      intro j _
      show min (2 ^ (k + (j + 1))) capBackoff = min (2 ^ (k + 1 + j)) capBackoff
      congr 2
      omega
    rw [harg]
    simp

/-- C4 (amended): the supervisor waits 1s before the first restart,
doubles the delay on every further failure up to the 60s cap (three
failures from process start wait 1s, 2s, 4s; in general the `j`-th wait
is `min 2^j 60`), and cancellation during any backoff wait stops the
loop immediately with no further restart attempt.  The code never resets
the delay: the claimed reset to the seed after a successful running
period does not exist (see the counterexample), and a successful session
outcome terminates the supervisor loop altogether rather than restarting
with a fresh seed. -/
theorem claim_C4_supervisor (b1 b2 b3 af : Bool) (n idx backoff : Nat)
    (cancelAt : Nat → Bool) (rest : List SessionOutcome) :
    runSupervisor (fun _ => false) [.crash b1, .crash b2, .crash b3] =
      ([1, 2, 4], .stopped) ∧
    runSupervisor (fun _ => false) (List.replicate n (.crash false)) =
      ((List.range n).map (fun j => min (2 ^ j) capBackoff), .stopped) ∧
    (cancelAt idx = true →
      runSupervisorLoop backoff idx cancelAt (.crash af :: rest) =
        ([], .cancelled)) := by
  refine ⟨?_, ?_, ?_⟩
  · cases b1 <;> cases b2 <;> cases b3 <;> rfl
  · have := supLoop_replicate n 0 0
    simpa [runSupervisor, seedBackoff] using this
  · intro h
    simp [runSupervisorLoop, h]

/-- C4 witness: the theorem instantiated concretely (cancellation during
the second backoff wait stops after a single completed 1s wait). -/
theorem claim_C4_supervisor_witness :
    runSupervisorLoop 2 1 (fun k => k = 1) [.crash false, .crash false] =
      ([], .cancelled) :=
  (claim_C4_supervisor false false false false 3 1 2 (fun k => decide (k = 1))
    [.crash false]).2.2 (by decide)

/-- C4 counterexample: the first session crashes (1s wait), the second
session has a successful running period and then crashes — the claimed
reset would make the next wait 1s again, but the code (which never
resets `backoff`) waits 2s. -/
theorem claim_C4_counterexample :
    runSupervisor (fun _ => false) [.crash false, .crash true] =
      ([1, 2], .stopped) ∧ (2 : Nat) ≠ 1 :=
  ⟨by rfl, by decide⟩

/-- C3 (amended): at the dispatch `select` with the limiter saturated and
the context alive, the event is never dropped — the only program step
enters the blocking fallback; from the fallback the event can never be
dropped, even if the context is cancelled while the acquire is pending
(the fallback send has no context arm), and every terminal state reached
from the fallback is a delivery; only when the context is already done
as the `select` executes can the event be dropped without a delivery
attempt. -/
theorem claim_C3_dispatch :
    (dnext ⟨.start, 5, false⟩).all (fun s => decide (s.phase ≠ .dropped)) = true ∧
    ⟨.blocked, 5, false⟩ ∈ dnext ⟨.start, 5, false⟩ ∧
    (dReach 64 [⟨.blocked, 5, false⟩]).all
      (fun s => decide (s.phase ≠ .dropped) &&
        (decide (dnext s ≠ []) || decide (s.phase = .delivered))) = true ∧
    ⟨.dropped, 5, true⟩ ∈ dnext ⟨.start, 5, true⟩ := by
  exact ⟨by decide, by decide, by decide, by decide⟩

/-- C3 counterexample: the claim says cancellation while an acquire is
pending aborts it and drops the event; but from the pending blocking
acquire with the context already cancelled (a state reachable from a
saturated live dispatch) no reachable state drops the event — the
fallback acquire cannot be aborted. -/
theorem claim_C3_counterexample :
    ⟨.blocked, 5, true⟩ ∈ dReach 64 [⟨.start, 5, false⟩] ∧
    (dReach 64 [⟨.blocked, 5, true⟩]).all
      (fun s => decide (s.phase ≠ .dropped)) = true := by
  exact ⟨by decide, by decide⟩

/-! ## Truncation -/

/-- C9 (amended): the alert contains the message text truncated to 200
bytes (not characters — Go's `len` and slicing are byte-based), with the
`"..."` marker appended exactly when the UTF-8 byte length exceeds 200;
a text of at most 200 bytes appears unchanged with no marker. -/
theorem claim_C9_truncation (keyword chatTitle : GoStr) (date : Nat)
    (link : GoStr) (text : GoStr) :
    ((utf8Str text).length ≤ 200 → truncate (utf8Str text) 200 = utf8Str text) ∧
    (200 < (utf8Str text).length →
      truncate (utf8Str text) 200 = (utf8Str text).take 200 ++ utf8Str (gs "...")) ∧
    ∃ pre post, buildAlertText keyword chatTitle date link text =
      pre ++ truncate (utf8Str text) 200 ++ post := by
  refine ⟨?_, ?_, ?_⟩
  · intro h
    rw [truncate, if_neg (by omega)]
  · intro h
    rw [truncate, if_pos (by omega)]
  · refine ⟨utf8Str (gs "🚨 <b>Match:</b> ") ++ (utf8Str keyword ++
      (utf8Str (gs "\n📢 <b>Chat:</b> ") ++ (utf8Str chatTitle ++
      (utf8Str (gs "\n🕒 <b>Time:</b> ") ++ (utf8Str (formatKitchen date) ++
      (utf8Str (gs "\n🔗 <a href=\"") ++ (utf8Str link ++
      utf8Str (gs "\">Link to Message</a>\n\n<i>")))))))),
      utf8Str (gs "</i>"), ?_⟩
    simp [buildAlertText, List.append_assoc]

/-- C9 witness: the theorem applied to a short and a long concrete text. -/
theorem claim_C9_truncation_witness :
    truncate (utf8Str (gs "hi")) 200 = utf8Str (gs "hi") ∧
    truncate (utf8Str (List.replicate 201 'a')) 200 =
      (utf8Str (List.replicate 201 'a')).take 200 ++ utf8Str (gs "...") :=
  ⟨(claim_C9_truncation [] [] 0 [] (gs "hi")).1 (by decide),
   (claim_C9_truncation [] [] 0 [] (List.replicate 201 'a')).2.1 (by decide)⟩

/-- C9 counterexample: a message of 101 two-byte runes has only 101
characters (≤ 200) yet its 202 UTF-8 bytes exceed the byte limit, so it
does not appear unchanged in the alert — the claimed character-based
bound is false. -/
theorem claim_C9_counterexample :
    (List.replicate 101 '£').length ≤ 200 ∧
    truncate (utf8Str (List.replicate 101 '£')) 200 ≠
      utf8Str (List.replicate 101 '£') := by
  exact ⟨by decide, by decide⟩

/-! ## Deduplication of `process` -/

/-- C1: an already-seen event or an unmatched event leaves the dedup
cache unchanged and dispatches nothing; an unseen matched event inserts
its key (TTL 1h) and dispatches exactly once; reprocessing the same
event is a silent no-op, so two passes dispatch exactly one alert. -/
theorem claim_C1_dedup (rules : List matchRule) (now now2 : Nat)
    (st : ScoutState) (msg : Msg) :
    ((mapLoad st.seen (dedupKey msg)).isSome = true →
      process rules now st msg = (st, none)) ∧
    (rules.find? (fun r => r.check msg.text) = none →
      process rules now st msg = (st, none)) ∧
    (mapLoad st.seen (dedupKey msg) = none →
      ∀ r, rules.find? (fun r => r.check msg.text) = some r →
        process rules now st msg =
          (⟨mapStore st.seen (dedupKey msg) (now + ttlSeconds)⟩,
            some (buildAlertText r.original msg.chatTitle msg.date msg.link
              msg.text))) ∧
    ((process rules now st msg).2.isSome = true →
      process rules now2 (process rules now st msg).1 msg =
        ((process rules now st msg).1, none)) := by
  refine ⟨?_, ?_, ?_, ?_⟩
  · intro h
    simp [process, h]
  · intro h
    by_cases hseen : (mapLoad st.seen (dedupKey msg)).isSome
    · simp [process, hseen]
    · simp [process, hseen, h]
  · intro h r hr
    simp [process, h, hr]
  · intro h
    by_cases hseen : (mapLoad st.seen (dedupKey msg)).isSome
    · simp [process, hseen] at h
    · have hl : mapLoad st.seen (dedupKey msg) = none := by
        cases hx : mapLoad st.seen (dedupKey msg) with
        | none => rfl
        | some v => rw [hx] at hseen; simp at hseen
      cases hfind : rules.find? (fun r => r.check msg.text) with
      | none => simp [process, hl, hfind] at h
      | some r =>
        have h1 : process rules now st msg =
            (⟨mapStore st.seen (dedupKey msg) (now + ttlSeconds)⟩,
              some (buildAlertText r.original msg.chatTitle msg.date msg.link
                msg.text)) := by
          simp [process, hl, hfind]
        rw [h1]
        simp [process, mapLoad_mapStore_self]

/-- C1 witness: a concrete event matched by the `"bitcoin"` rule alerts
on first processing and is silently ignored on the second. -/
theorem claim_C1_dedup_witness :
    process (compileRules [gs "bitcoin"]) 5
        (process (compileRules [gs "bitcoin"]) 0 ⟨[]⟩
          (⟨999, 100, gs "Test", [], gs "bitcoin is up", 0, gs "lnk"⟩ : Msg)).1
        (⟨999, 100, gs "Test", [], gs "bitcoin is up", 0, gs "lnk"⟩ : Msg) =
      ((process (compileRules [gs "bitcoin"]) 0 ⟨[]⟩
          (⟨999, 100, gs "Test", [], gs "bitcoin is up", 0, gs "lnk"⟩ : Msg)).1,
        none) :=
  (claim_C1_dedup (compileRules [gs "bitcoin"]) 0 5 ⟨[]⟩
    (⟨999, 100, gs "Test", [], gs "bitcoin is up", 0, gs "lnk"⟩ : Msg)).2.2.2
    (by rfl)

/-! ## Allow-list filtering -/

theorem emitMessage_unlisted (cache : List (Int × PeerInfo)) (ents : Entities)
    (msg : TGMsg) (h : lookupAssoc cache (peerId msg.peer) = none) :
    emitMessage cache ents msg = none := by
  cases hp : msg.peer with
  | channel cid =>
    rw [hp] at h
    simp only [peerId] at h
    cases hl : lookupAssoc ents.channels cid <;> simp [emitMessage, hp, hl, h]
  | chat cid =>
    rw [hp] at h
    simp only [peerId] at h
    cases hl : lookupAssoc ents.chats cid <;> simp [emitMessage, hp, hl, h]
  | user uid =>
    rw [hp] at h
    simp only [peerId] at h
    simp [emitMessage, hp, h]

theorem emitMessage_some_chatID (cache : List (Int × PeerInfo))
    (ents : Entities) (msg : TGMsg) (m : Msg)
    (h : emitMessage cache ents msg = some m) :
    m.chatID = peerId msg.peer ∧
    (lookupAssoc cache (peerId msg.peer)).isSome = true := by
  have hsome : (lookupAssoc cache (peerId msg.peer)).isSome = true := by
    cases hc : lookupAssoc cache (peerId msg.peer) with
    | none => rw [emitMessage_unlisted cache ents msg hc] at h; cases h
    | some info => rfl
  refine ⟨?_, hsome⟩
  cases hp : msg.peer with
  | channel cid =>
    simp only [emitMessage, hp] at h
    cases hl : lookupAssoc ents.channels cid <;> rw [hl] at h <;>
      cases hc : lookupAssoc cache cid <;> simp only [hc] at h <;>
        cases h <;> simp [peerId]
  | chat cid =>
    simp only [emitMessage, hp] at h
    cases hl : lookupAssoc ents.chats cid <;> rw [hl] at h <;>
      cases hc : lookupAssoc cache cid <;> simp only [hc] at h <;>
        cases h <;> simp [peerId]
  | user uid =>
    simp only [emitMessage, hp] at h
    cases hc : lookupAssoc cache uid <;> simp only [hc] at h <;>
      cases h <;> simp [peerId]

theorem pipe_avoid (c : Int) : ∀ (acts : List PipeAct) (st : PipeState),
    lookupAssoc st.cache c = none →
    (∀ m ∈ st.queue, m.chatID ≠ c) →
    (∀ m ∈ st.evaluated, m.chatID ≠ c) →
    actsAvoid c acts →
    (∀ m ∈ (pipeRun st acts).queue, m.chatID ≠ c) ∧
    (∀ m ∈ (pipeRun st acts).evaluated, m.chatID ≠ c) := by
  intro acts
  induction acts with
  | nil => intro st _ h2 h3 _; exact ⟨h2, h3⟩
  | cons a acts ih =>
    intro st h1 h2 h3 havoid
    have havoid' : actsAvoid c acts :=
      fun x hx => havoid x (List.mem_cons_of_mem a hx)
    show (∀ m ∈ (pipeRun (pipeStep st a) acts).queue, m.chatID ≠ c) ∧
      (∀ m ∈ (pipeRun (pipeStep st a) acts).evaluated, m.chatID ≠ c)
    apply ih (pipeStep st a)
    case a =>
      cases a with
      | ingest ents msg => exact h1
      | consume =>
        cases hq : st.queue <;> simpa [pipeStep, hq] using h1
      | setCache cache2 =>
        exact havoid (.setCache cache2) (by simp) cache2 rfl
    case a =>
      cases a with
      | ingest ents msg =>
        intro m hm
        rcases List.mem_append.mp hm with hm | hm
        · exact h2 m hm
        · cases he : emitMessage st.cache ents msg with
          | none => rw [he] at hm; cases hm
          | some m0 =>
            rw [he] at hm
            simp only [Option.toList_some, List.mem_singleton] at hm
            intro hceq
            rcases emitMessage_some_chatID st.cache ents msg m0 he with
              ⟨hid, hsome⟩
            rw [hm, hid] at hceq
            rw [hceq] at hsome
            rw [h1] at hsome
            cases hsome
      | consume =>
        cases hq : st.queue with
        | nil => simp [pipeStep, hq]
        | cons m rest =>
          intro x hx
          simp only [pipeStep, hq] at hx
          exact h2 x (by simp [hq, hx])
      | setCache cache2 =>
        simpa [pipeStep] using h2
    case a =>
      cases a with
      | ingest ents msg => exact h3
      | consume =>
        cases hq : st.queue with
        | nil => simpa [pipeStep, hq] using h3
        | cons m rest =>
          intro x hx
          simp only [pipeStep, hq, List.mem_append, List.mem_singleton] at hx
          rcases hx with hx | hx
          · exact h3 x hx
          · subst hx; exact h2 x (by simp [hq])
      | setCache cache2 =>
        simpa [pipeStep] using h3
    case a => exact havoid'

/-- C2: a message whose chat identifier is not in the allow-listed peer
map is dropped by `emitMessage` before reaching the inbound channel; and
along any pipeline run in which that chat identifier is never
allow-listed, no message bearing it is ever on the inbound channel or
examined by the Rule Engine. -/
theorem claim_C2_allowlist (c : Int) (cache0 cache : List (Int × PeerInfo))
    (ents : Entities) (tmsg : TGMsg) (acts : List PipeAct) :
    (lookupAssoc cache (peerId tmsg.peer) = none →
      emitMessage cache ents tmsg = none) ∧
    (lookupAssoc cache0 c = none → actsAvoid c acts →
      (∀ m ∈ (pipeRun (pipeInit cache0) acts).queue, m.chatID ≠ c) ∧
      (∀ m ∈ (pipeRun (pipeInit cache0) acts).evaluated, m.chatID ≠ c)) := by
  refine ⟨emitMessage_unlisted cache ents tmsg, fun h1 h2 => ?_⟩
  exact pipe_avoid c acts (pipeInit cache0) h1 (by simp [pipeInit])
    (by simp [pipeInit]) h2

/-- C2 witness: with an empty allow-list, a channel-999 update is
dropped at `emitMessage`. -/
theorem claim_C2_allowlist_witness :
    emitMessage [] ⟨[], []⟩ (⟨1, .channel 999, gs "x", 0⟩ : TGMsg) = none :=
  (claim_C2_allowlist 999 [] [] ⟨[], []⟩ (⟨1, .channel 999, gs "x", 0⟩ : TGMsg)
    []).1 (by rfl)

/-! ## Rule compilation: skipping invalid `re:` specs -/

theorem compileKeyword_original (k : GoStr) (r : matchRule)
    (h : compileKeyword k = some r) : r.original = k := by
  by_cases h1 : goHasPrefix k (gs "re:")
  · rw [compileKeyword, if_pos h1] at h
    cases hr : goRegexCompile (k.drop 3) <;> rw [hr] at h
    · cases h
    · cases h; rfl
  · rw [compileKeyword, if_neg h1] at h
    by_cases h2 : goContains k (gs "*")
    · rw [if_pos h2] at h; cases h; rfl
    · rw [if_neg h2] at h
      by_cases h3 : goContains k (gs " ")
      · rw [if_pos h3] at h; cases h; rfl
      · rw [if_neg h3] at h; cases h; rfl

/-- C5: an invalid `re:` spec produces no matcher (the loop `continue`s)
and removing it from any position leaves the other specs' compilation
untouched; the compiled rule list carries exactly the valid specs as its
originals, in input order. -/
theorem claim_C5_invalid_regex (ks ks1 ks2 : List GoStr) (bad : GoStr)
    (h1 : goHasPrefix bad (gs "re:") = true)
    (h2 : goRegexCompile (bad.drop 3) = none) :
    compileKeyword bad = none ∧
    compileRules (ks1 ++ bad :: ks2) = compileRules ks1 ++ compileRules ks2 ∧
    (compileRules ks).map (fun r => r.original) =
      ks.filter (fun k => (compileKeyword k).isSome) := by
  have hbad : compileKeyword bad = none := by
    rw [compileKeyword, if_pos h1, h2]
  refine ⟨hbad, ?_, ?_⟩
  · rw [compileRules, compileRules, compileRules, List.filterMap_append]
    simp [List.filterMap_cons, hbad]
  · induction ks with
    | nil => rfl
    | cons k ks ih =>
      cases hk : compileKeyword k with
      | none =>
        have ha : compileRules (k :: ks) = compileRules ks := by
          simp [compileRules, List.filterMap_cons, hk]
        have hb : (k :: ks).filter (fun k => (compileKeyword k).isSome) =
            ks.filter (fun k => (compileKeyword k).isSome) := by
          simp [List.filter_cons, hk]
        rw [ha, hb]
        exact ih
      | some r =>
        have ha : compileRules (k :: ks) = r :: compileRules ks := by
          simp [compileRules, List.filterMap_cons, hk]
        have hb : (k :: ks).filter (fun k => (compileKeyword k).isSome) =
            k :: ks.filter (fun k => (compileKeyword k).isSome) := by
          simp [List.filter_cons, hk]
        rw [ha, hb, List.map_cons, compileKeyword_original k r hk]
        exact congrArg (List.cons k) ih

/-- C5 witness: `"re:("` is an invalid regex spec; surrounded by two
valid specs it alone is dropped. -/
theorem claim_C5_invalid_regex_witness :
    compileKeyword (gs "re:(") = none :=
  (claim_C5_invalid_regex [] [gs "bitcoin"] [gs "hello world"] (gs "re:(")
    (by rfl) (by rfl)).1

/-! ## First-match-wins rule evaluation -/

theorem find?_first {α : Type} (p : α → Bool) :
    ∀ (l : List α) (i : Nat) (hi : i < l.length),
      (∀ j, (hj : j < i) → p (l.get ⟨j, Nat.lt_trans hj hi⟩) = false) →
      p (l.get ⟨i, hi⟩) = true → l.find? p = some (l.get ⟨i, hi⟩) := by
  intro l
  induction l with
  | nil => intro i hi; simp at hi
  | cons a l ih =>
    intro i hi hprev hcur
    cases i with
    | zero =>
      rw [List.find?_cons]
      have hpa : p a = true := hcur
      rw [hpa]
      rfl
    | succ i =>
      have ha : p a = false := hprev 0 (Nat.succ_pos i)
      rw [List.find?_cons, ha]
      exact ih i (Nat.lt_of_succ_lt_succ hi)
        (fun j hj => hprev (j + 1) (Nat.succ_lt_succ hj)) hcur

/-- C6: rules are evaluated in input order and the first whose predicate
matches the text wins; with no match, `process` returns without effect;
for specs `["bitcoin", "re:(?i)b[oa]t"]` on `"I saw a bot"` the
substring rule does not fire and only the regex rule fires. -/
theorem claim_C6_first_match (rules : List matchRule) (text : GoStr)
    (now : Nat) (st : ScoutState) (msg : Msg) (i : Nat) (hi : i < rules.length) :
    ((∀ j, (hj : j < i) →
        ((rules.get ⟨j, Nat.lt_trans hj hi⟩).check text) = false) →
      (rules.get ⟨i, hi⟩).check text = true →
      rules.find? (fun r => r.check text) = some (rules.get ⟨i, hi⟩)) ∧
    ((∀ r ∈ rules, r.check msg.text = false) →
      process rules now st msg = (st, none)) ∧
    ((compileRules [gs "bitcoin", gs "re:(?i)b[oa]t"]).map
        (fun r => r.check (gs "I saw a bot")) = [false, true] ∧
      ((compileRules [gs "bitcoin", gs "re:(?i)b[oa]t"]).find?
          (fun r => r.check (gs "I saw a bot"))).map (fun r => r.original) =
        some (gs "re:(?i)b[oa]t")) := by
  refine ⟨?_, ?_, by rfl, by rfl⟩
  · exact find?_first (fun r => r.check text) rules i hi
  · intro h
    have hf : rules.find? (fun r => r.check msg.text) = none :=
      List.find?_eq_none.mpr (fun r hr => by simp [h r hr])
    by_cases hseen : (mapLoad st.seen (dedupKey msg)).isSome
    · simp [process, hseen]
    · simp [process, hseen, hf]

/-- C6 witness: the general first-match fact instantiated on the two
compiled example rules (index 1 fires, index 0 does not). -/
theorem claim_C6_first_match_witness :
    (compileRules [gs "bitcoin", gs "re:(?i)b[oa]t"]).find?
        (fun r => r.check (gs "I saw a bot")) =
      some ((compileRules [gs "bitcoin", gs "re:(?i)b[oa]t"]).get
        ⟨1, by decide⟩) :=
  (claim_C6_first_match (compileRules [gs "bitcoin", gs "re:(?i)b[oa]t"])
    (gs "I saw a bot") 0 ⟨[]⟩
    (⟨1, 1, [], [], [], 0, []⟩ : Msg) 1 (by decide)).1
    (fun j hj => by
      interval_cases j
      · rfl)
    (by rfl)

/-! ## Validity of the patterns `compileRules` constructs (C10) -/

/-- The per-rune expansion performed by `QuoteMeta` followed by the
space → `\s+` replacement. -/
def escChar (c : Char) : GoStr :=
  if c = ' ' then gs "\\s+"
  else if special c then ['\\', c]
  else if c = '\x00' then gs "\\x00"
  else [c]

theorem strConcatMap_append (f : Char → GoStr) (a b : GoStr) :
    strConcatMap f (a ++ b) = strConcatMap f a ++ strConcatMap f b := by
  induction a with
  | nil => rfl
  | cons c a ih => simp [strConcatMap, ih]

theorem quoteMeta_replace_eq (s : GoStr) :
    goReplaceAll (goQuoteMeta s) (gs " ") (gs "\\s+") =
      strConcatMap escChar s := by
  have hrepl : ∀ x : GoStr, goReplaceAll x (gs " ") (gs "\\s+") =
      strConcatMap (fun c => if c = ' ' then gs "\\s+" else [c]) x :=
    fun _ => rfl
  induction s with
  | nil => rfl
  | cons c s ih =>
    have hq : goQuoteMeta (c :: s) =
        (if special c then ['\\', c]
         else if c = '\x00' then gs "\\x00" else [c]) ++ goQuoteMeta s := rfl
    rw [hq, hrepl, strConcatMap_append, ← hrepl, ← hrepl, ih]
    rw [show strConcatMap escChar (c :: s) = escChar c ++ strConcatMap escChar s
      from rfl]
    congr 1
    by_cases h1 : c = ' '
    · subst h1; rfl
    · by_cases h2 : special c
      · have hb : ¬ ('\\' : Char) = ' ' := by decide
        rw [if_pos h2, hrepl]
        simp [strConcatMap, hb, h1, escChar, h2]
      · by_cases h3 : c = '\x00'
        · subst h3; rw [if_neg h2, if_pos rfl]; rfl
        · rw [if_neg h2, if_neg h3, hrepl]
          simp [strConcatMap, h1, escChar, h2, h3]

theorem foldl_step_none (b : GoStr) :
    List.foldl (fun o c => o.bind (fun st => step st c)) none b = none := by
  induction b with
  | nil => rfl
  | cons c b ih => simpa using ih

theorem runScan_append (st : ScanSt) (a b : GoStr) :
    runScan st (a ++ b) = (runScan st a).bind (fun st2 => runScan st2 b) := by
  unfold runScan
  rw [List.foldl_append]
  cases hfa : List.foldl (fun o c => o.bind (fun st => step st c)) (some st) a with
  | none => simpa using foldl_step_none b
  | some st2 => simp

theorem stepNorm_literal (d p : Nat) (c : Char) (h : special c = false) :
    stepNorm d p c = some ⟨.norm, d, 2⟩ := by
  have h1 : ¬ c = '\\' := fun he => absurd (he ▸ h) (by decide)
  have h2 : ¬ c = '(' := fun he => absurd (he ▸ h) (by decide)
  have h3 : ¬ c = ')' := fun he => absurd (he ▸ h) (by decide)
  have h4 : ¬ c = '|' := fun he => absurd (he ▸ h) (by decide)
  have h5 : ¬ c = '*' := fun he => absurd (he ▸ h) (by decide)
  have h6 : ¬ c = '+' := fun he => absurd (he ▸ h) (by decide)
  have h7 : ¬ c = '?' := fun he => absurd (he ▸ h) (by decide)
  have h8 : ¬ c = '[' := fun he => absurd (he ▸ h) (by decide)
  simp [stepNorm, h1, h2, h3, h4, h5, h6, h7, h8]

theorem escChar_run (c : Char) (d p : Nat) :
    runScan ⟨.norm, d, p⟩ (escChar c) =
      some ⟨.norm, d, if c = ' ' then 1 else 2⟩ := by
  by_cases h1 : c = ' '
  · subst h1; rfl
  · by_cases h2 : special c
    · rw [escChar, if_neg h1, if_pos h2]
      have hx : ¬ c = 'x' := fun he => absurd (he ▸ h2) (by decide)
      have hok : escOK c = true := by rw [escOK, h2]; rfl
      show ((some (⟨.norm, d, p⟩ : ScanSt)).bind
        (fun st => step st '\\')).bind (fun st => step st c) = _
      rw [Option.some_bind]
      rw [show step (⟨.norm, d, p⟩ : ScanSt) '\\' = some ⟨.esc, d, p⟩ from rfl]
      rw [Option.some_bind]
      show (if c = 'x' then _ else if escOK c then _ else _) = _
      rw [if_neg hx, hok, if_neg h1]
      rfl
    · by_cases h3 : c = '\x00'
      · subst h3; rfl
      · have h2b : special c = false := by simpa using h2
        rw [escChar, if_neg h1, if_neg h2, if_neg h3]
        show (some (⟨.norm, d, p⟩ : ScanSt)).bind (fun st => step st c) = _
        rw [Option.some_bind]
        rw [show step (⟨.norm, d, p⟩ : ScanSt) c = stepNorm d p c from rfl,
          stepNorm_literal d p c h2b, if_neg h1]

theorem seg_run (s : GoStr) : ∀ d p, ∃ q,
    runScan ⟨.norm, d, p⟩ (strConcatMap escChar s) = some ⟨.norm, d, q⟩ := by
  induction s with
  | nil => intro d p; exact ⟨p, rfl⟩
  | cons c s ih =>
    intro d p
    obtain ⟨q, hq⟩ := ih d (if c = ' ' then 1 else 2)
    refine ⟨q, ?_⟩
    rw [show strConcatMap escChar (c :: s) = escChar c ++ strConcatMap escChar s
      from rfl, runScan_append, escChar_run c d p]
    simpa using hq

theorem glue_run (d p : Nat) :
    runScan ⟨.norm, d, p⟩ (gs ".*") = some ⟨.norm, d, 1⟩ := rfl

theorem join_run (parts : List GoStr) : ∀ p, ∃ q,
    runScan ⟨.norm, 0, p⟩
      (goJoin (gs ".*") (parts.map (strConcatMap escChar))) =
    some ⟨.norm, 0, q⟩ := by
  induction parts with
  | nil => intro p; exact ⟨p, rfl⟩
  | cons x rest ih =>
    intro p
    cases rest with
    | nil => exact seg_run x 0 p
    | cons y r =>
      obtain ⟨q1, hq1⟩ := seg_run x 0 p
      obtain ⟨q, hq⟩ := ih 1
      refine ⟨q, ?_⟩
      rw [List.map_cons, List.map_cons, goJoin, List.append_assoc]
      rw [runScan_append, hq1, Option.some_bind]
      rw [runScan_append, glue_run, Option.some_bind]
      rw [List.map_cons] at hq
      exact hq

theorem prefix_flags_run : runScan scanStart (gs "(?si)") = some ⟨.norm, 0, 0⟩ := by
  decide

theorem checkValid_glob (k : GoStr) : checkValid (globPattern k) = true := by
  rw [globPattern]
  have hmap : (goSplit (gs "*") k).map
      (fun p => goReplaceAll (goQuoteMeta p) (gs " ") (gs "\\s+")) =
      (goSplit (gs "*") k).map (strConcatMap escChar) := by
    apply List.map_congr_left
    intro x _
    exact quoteMeta_replace_eq x
  rw [hmap]
  obtain ⟨q, hq⟩ := join_run (goSplit (gs "*") k) 0
  rw [checkValid, runScan_append, prefix_flags_run]
  simp [hq, scanFinal]

theorem checkValid_phrase (k : GoStr) : checkValid (phrasePattern k) = true := by
  rw [phrasePattern, quoteMeta_replace_eq]
  obtain ⟨q, hq⟩ := seg_run k 0 0
  rw [checkValid, runScan_append, prefix_flags_run]
  simp [hq, scanFinal]

/-- C10: the patterns the glob and phrase branches construct are valid
regular expressions for every keyword (so the panicking `MustCompile`
call is unreachable), and every non-`re:` spec compiles to a matcher. -/
theorem claim_C10_construction_valid (k : GoStr) :
    (goRegexCompile (globPattern k)).isSome = true ∧
    (goRegexCompile (phrasePattern k)).isSome = true ∧
    (goHasPrefix k (gs "re:") = false → (compileKeyword k).isSome = true) := by
  refine ⟨?_, ?_, ?_⟩
  · simp [goRegexCompile, checkValid_glob k]
  · simp [goRegexCompile, checkValid_phrase k]
  · intro h
    rw [compileKeyword]
    rw [if_neg (by simp [h])]
    split_ifs <;> rfl

/-- C10 witness: globs made purely of metacharacters compile. -/
theorem claim_C10_construction_valid_witness :
    (compileKeyword (gs "**")).isSome = true :=
  (claim_C10_construction_valid (gs "**")).2.2 (by rfl)

/-! ## Glob and phrase matching semantics (C8) -/

/-- What `\s+` compiles to. -/
def wsPlus : Regex := .cat (.cls (.kind .ws)) (.star (.cls (.kind .ws)))

/-- A case-insensitive literal atom. -/
def ci (c : Char) : Regex := .cls (.litCI c)

/-- The AST `regexp.Compile` yields for the phrase pattern
`(?si)hello\s+world` built from spec `"hello world"`. -/
def Rphrase : Regex :=
  .cat (ci 'h') (.cat (ci 'e') (.cat (ci 'l') (.cat (ci 'l') (.cat (ci 'o')
    (.cat wsPlus (.cat (ci 'w') (.cat (ci 'o') (.cat (ci 'r')
    (.cat (ci 'l') (ci 'd'))))))))))

/-- The AST `regexp.Compile` yields for the glob pattern
`(?si)rtx\s+.*\s+5070` built from spec `"rtx * 5070"`. -/
def Rglob : Regex :=
  .cat (ci 'r') (.cat (ci 't') (.cat (ci 'x') (.cat wsPlus
    (.cat (.star (.cls .any)) (.cat wsPlus (.cat (ci '5') (.cat (ci '0')
    (.cat (ci '7') (ci '0')))))))))

theorem matches_cons_cls (cl : CharCls) (b : Regex) (c : Char) (s : GoStr)
    (h1 : clsMatch cl c = true) (h2 : Matches b s) :
    Matches (.cat (.cls cl) b) (c :: s) :=
  Matches.cat (Matches.cls h1) h2

theorem matches_wsPlus (w : GoStr) (hne : w ≠ [])
    (hws : ∀ c ∈ w, kindMatch .ws c = true) : Matches wsPlus w := by
  cases w with
  | nil => cases hne rfl
  | cons c w' =>
    exact Matches.cat
      (Matches.cls (show clsMatch (.kind .ws) c = true from hws c (by simp)))
      (matches_star_cls _ w' (fun x hx =>
        show clsMatch (.kind .ws) x = true from hws x (by simp [hx])))

theorem matchString_of_matches_whole (r : Regex) (s : GoStr)
    (h : Matches r s) : matchString r s = true := by
  simpa using matchString_of_matches r [] s [] h

/-- C8: whitespace in a glob or phrase spec matches one or more
whitespace characters (including newlines), matching is
case-insensitive, and `*` matches anything including newlines: the
spec-listed concrete examples hold, and in general the phrase rule
`"hello world"` matches `"Hello" ++ w ++ "World"` for every nonempty
all-whitespace `w`, while the glob rule `"rtx * 5070"` matches
`"RTX " ++ mid ++ " 5070"` for every `mid` whatsoever. -/
theorem claim_C8_whitespace (w mid : GoStr) (hne : w ≠ [])
    (hws : ∀ c ∈ w, kindMatch .ws c = true) :
    ((compileKeyword (gs "rtx * 5070")).map
        (fun r => r.check (gs "Selling RTX Super 5070 cheap")) = some true) ∧
    ((compileKeyword (gs "rtx * 5070")).map
        (fun r => r.check (gs "RTX\nSuper 5070")) = some true) ∧
    ((compileKeyword (gs "rtx * 5070")).map
        (fun r => r.check (gs "RTX 4070")) = some false) ∧
    ((compileKeyword (gs "hello world")).map
        (fun r => r.check (gs "Hello\nWorld")) = some true) ∧
    ((compileKeyword (gs "hello world")).map
        (fun r => r.check (gs "Hello    World")) = some true) ∧
    ((compileKeyword (gs "hello world")).map
        (fun r => r.check (gs "Hello" ++ w ++ gs "World")) = some true) ∧
    ((compileKeyword (gs "rtx * 5070")).map
        (fun r => r.check (gs "RTX " ++ mid ++ gs " 5070")) = some true) := by
  refine ⟨by rfl, by rfl, by rfl, by rfl, by rfl, ?_, ?_⟩
  · rw [show (compileKeyword (gs "hello world")).map
        (fun r => r.check (gs "Hello" ++ w ++ gs "World")) =
        some (matchString Rphrase (gs "Hello" ++ w ++ gs "World")) from rfl]
    refine congrArg some ?_
    show matchString Rphrase
      ('H' :: 'e' :: 'l' :: 'l' :: 'o' ::
        (w ++ ('W' :: 'o' :: 'r' :: 'l' :: 'd' :: ([] : GoStr)))) = true
    apply matchString_of_matches_whole
    refine matches_cons_cls _ _ _ _ (by decide) ?_
    refine matches_cons_cls _ _ _ _ (by decide) ?_
    refine matches_cons_cls _ _ _ _ (by decide) ?_
    refine matches_cons_cls _ _ _ _ (by decide) ?_
    refine matches_cons_cls _ _ _ _ (by decide) ?_
    refine Matches.cat (matches_wsPlus w hne hws) ?_
    refine matches_cons_cls _ _ _ _ (by decide) ?_
    refine matches_cons_cls _ _ _ _ (by decide) ?_
    refine matches_cons_cls _ _ _ _ (by decide) ?_
    refine matches_cons_cls _ _ _ _ (by decide) ?_
    exact Matches.cls (by decide)
  · rw [show (compileKeyword (gs "rtx * 5070")).map
        (fun r => r.check (gs "RTX " ++ mid ++ gs " 5070")) =
        some (matchString Rglob (gs "RTX " ++ mid ++ gs " 5070")) from rfl]
    refine congrArg some ?_
    show matchString Rglob
      ('R' :: 'T' :: 'X' :: ' ' ::
        (mid ++ (' ' :: '5' :: '0' :: '7' :: '0' :: ([] : GoStr)))) = true
    apply matchString_of_matches_whole
    refine matches_cons_cls _ _ _ _ (by decide) ?_
    refine matches_cons_cls _ _ _ _ (by decide) ?_
    refine matches_cons_cls _ _ _ _ (by decide) ?_
    show Matches _ ([' '] ++
      (mid ++ (' ' :: '5' :: '0' :: '7' :: '0' :: ([] : GoStr))))
    refine Matches.cat (matches_wsPlus [' '] (by decide) (by decide)) ?_
    refine Matches.cat (matches_star_any mid) ?_
    show Matches _ ([' '] ++ ('5' :: '0' :: '7' :: '0' :: ([] : GoStr)))
    refine Matches.cat (matches_wsPlus [' '] (by decide) (by decide)) ?_
    refine matches_cons_cls _ _ _ _ (by decide) ?_
    refine matches_cons_cls _ _ _ _ (by decide) ?_
    refine matches_cons_cls _ _ _ _ (by decide) ?_
    exact Matches.cls (by decide)

/-- C8 witness: the general facts applied to `w = " \n"` (a space and a
newline) and `mid = "Super"`. -/
theorem claim_C8_whitespace_witness :
    (compileKeyword (gs "hello world")).map
        (fun r => r.check (gs "Hello" ++ [' ', '\n'] ++ gs "World")) =
      some true :=
  (claim_C8_whitespace [' ', '\n'] (gs "Super") (by decide)
    (by decide)).2.2.2.2.2.1

end TelegramScout
